import Mathlib

/-!
Verification development for the berbalang evaluation/profiling pipeline and
generational loop.  The Rust sources are shallowly embedded: `Vec` becomes
`List` (push = append at the right end, pop = remove the last element),
`HashSet` becomes `Finset`, `SegQueue` (drained FIFO) becomes the `List` of its
elements in queue order, `u64`/`usize` become `ℕ` with explicit `% 2^64`
where wrap-around matters, `Duration` becomes its microsecond count as `ℕ`,
and `f64` results become `Option ℚ` where `none` stands for the non-finite
values (NaN/infinities) produced by a zero denominator; finite rounding is
abstracted away.  Functions from repository modules that are not in the
provided sources are modelled from the spec and marked as such.
-/

namespace Emu

/-- Model of `Block` from emulator/profiler.rs: a basic block `{entry: u64, size: usize}`. -/
structure Block where
  entry : ℕ
  size : ℕ
deriving DecidableEq

/-- Model of `MemLogEntry` from emulator/profiler.rs: one observed memory write. -/
structure MemLogEntry where
  program_counter : ℕ
  address : ℕ
  num_bytes_written : ℕ
  value : ℕ
deriving DecidableEq

/-- Model of `loader::Seg` (loader.rs is not among the provided sources): an opaque
memory-segment record; only carried around by the profiler, never inspected
by the code under verification. -/
structure Seg where
  addr : ℕ
  memsz : ℕ
deriving DecidableEq

/-- Modelled from the spec: `RegisterState` (emulator/register_pattern.rs is not
among the provided sources).  Spec §3/§6: the final register values of a run,
an architecture-parametrized key/value snapshot; `RegisterState::new` packages
the profiler's register map together with the optional written-memory slice it
receives.  Both call sites in profiler.rs apply it pointwise to the same data,
so an injective packaging of its two arguments is a faithful model. -/
structure RegisterState where
  regs : List (ℕ × ℕ)
  mem : Option (List Seg)
deriving DecidableEq

/-- Modelled from the spec (see `RegisterState`): `RegisterState::new(&registers,
Some(&written_memory))`. -/
def RegisterState.new (regs : List (ℕ × ℕ)) (mem : Option (List Seg)) : RegisterState :=
  ⟨regs, mem⟩

/-- Model of `Profiler<C>` from emulator/profiler.rs, at the point where it is drained:
the concurrent `SegQueue`s appear as the lists of their elements in FIFO
order.  The fields `registers_to_read` and `input` are ignored by the `..`
pattern in both `From<Profiler>` and `collate` and are omitted. -/
structure Profiler where
  block_log : List Block
  gadget_log : List ℕ
  written_memory : List Seg
  write_log : List MemLogEntry
  cpu_error : Option ℕ
  emulation_time : ℕ
  registers : List (ℕ × ℕ)
deriving DecidableEq

/-- Model of `Profile` from emulator/profiler.rs.  `gadgets_executed` is a vector of
hash sets, modelled as `Finset ℕ`. -/
structure Profile where
  paths : List (List Block)
  cpu_errors : List (Option ℕ)
  emulation_times : List ℕ
  registers : List RegisterState
  gadgets_executed : List (Finset ℕ)
  writeable_memory : List (List Seg)
  write_logs : List (List MemLogEntry)
  executable : Bool
deriving DecidableEq

/-- Model of `impl From<Profiler<C>> for Profile` (profiler.rs lines 92-135): drain one
profiler into a single-run profile.  Each per-run vector receives exactly one
element; the gadget queue is drained into a hash set
(`while let Ok(g) = gadget_log.pop() { executed.insert(g) }` = `toFinset`);
`writeable_memory` stays the empty vector (`writeable_memory_regions` is
created and never pushed to); `executable` is set to `true`. -/
def Profile.of_profiler (p : Profiler) : Profile where
  paths := [p.block_log]
  cpu_errors := [p.cpu_error]
  emulation_times := [p.emulation_time]
  registers := [RegisterState.new p.registers (some p.written_memory)]
  gadgets_executed := [p.gadget_log.toFinset]
  writeable_memory := []
  write_logs := [p.write_log]
  executable := true

/-- Model of `Profile::collate` (profiler.rs lines 171-218).  The source loop pushes,
for each profiler in order, one element onto each per-run vector; a
push-per-element loop over a list is its `List.map`.  As in `of_profiler`,
`writeable_memory` remains empty and `executable` is `true`. -/
def Profile.collate (ps : List Profiler) : Profile where
  paths := ps.map (fun p => p.block_log)
  cpu_errors := ps.map (fun p => p.cpu_error)
  emulation_times := ps.map (fun p => p.emulation_time)
  registers := ps.map (fun p => RegisterState.new p.registers (some p.written_memory))
  gadgets_executed := ps.map (fun p => p.gadget_log.toFinset)
  writeable_memory := []
  write_logs := ps.map (fun p => p.write_log)
  executable := true

/-- Model of `Profile::absorb` (profiler.rs lines 149-169): extend every per-run vector
of `self` with the corresponding vector of `other` and AND the `executable`
flags. -/
def Profile.absorb (self other : Profile) : Profile where
  paths := self.paths ++ other.paths
  cpu_errors := self.cpu_errors ++ other.cpu_errors
  emulation_times := self.emulation_times ++ other.emulation_times
  registers := self.registers ++ other.registers
  gadgets_executed := self.gadgets_executed ++ other.gadgets_executed
  writeable_memory := self.writeable_memory ++ other.writeable_memory
  write_logs := self.write_logs ++ other.write_logs
  executable := self.executable && other.executable

/-- Model of `f64` division: `some` of the exact rational quotient when the
denominator is nonzero (rounding abstracted), `none` for the non-finite
results (NaN or ±∞) that IEEE-754 produces on a zero denominator. -/
def f64Div (a b : ℚ) : Option ℚ :=
  if b = 0 then none else some (a / b)

/-- Model of `1.0 - x` on the `f64` model: non-finite operands stay non-finite. -/
def f64OneSub : Option ℚ → Option ℚ
  | some x => some (1 - x)
  | none => none

/-- Model of `Profile::avg_emulation_micros` (profiler.rs lines 220-223):
`sum(times) as f64 / len(times) as f64`, with no emptiness check. -/
def Profile.avg_emulation_micros (p : Profile) : Option ℚ :=
  f64Div (p.emulation_times.sum : ℚ) (p.emulation_times.length : ℚ)

/-- Model of `Profile::addresses_written_to` (profiler.rs lines 244-252): for every
entry of the flattened write log, insert the `num_bytes_written` consecutive
addresses starting at `entry.address` (u64 addition, hence the `% 2^64`). -/
def Profile.addresses_written_to (p : Profile) : Finset ℕ :=
  p.write_logs.flatten.foldl
    (fun s e => s ∪ (Finset.range e.num_bytes_written).image (fun i => (e.address + i) % 2^64))
    ∅

/-- Model of `Profile::mem_write_ratio` (profiler.rs lines 254-259), with the size of
writeable memory `S` (obtained in the source from the global static memory
image) passed explicitly: `|addresses_written_to| as f64 / S as f64`. -/
def Profile.mem_write_frac (S : ℕ) (p : Profile) : Option ℚ :=
  f64Div (p.addresses_written_to.card : ℚ) (S : ℚ)

end Emu

namespace Roper

/-- The objective names used as keys of the fitness aggregator in
roper/evaluation.rs (string keys in the source; an enumeration of the names
occurring in `code_coverage_ff` here). -/
inductive ObjKey
  | code_coverage
  | code_frequency
  | gadgets_executed
  | mem_ratio_written
deriving DecidableEq, Fintype

/-- Modelled from the spec: `Weighted` (fitness.rs is not among the provided
sources).  Spec §3: a named mapping from objective name to numeric score,
paired with an externally supplied weight table keyed by the same names; the
aggregator stores raw per-objective scores and performs no normalization.
`insert` records a score under its name. -/
structure Weighted where
  weights : List (ObjKey × ℚ)
  scores : List (ObjKey × Option ℚ)
deriving DecidableEq

/-- Modelled from the spec (see `Weighted`): `Weighted::new(weights)` starts
with an empty score map. -/
def Weighted.new (w : List (ObjKey × ℚ)) : Weighted :=
  ⟨w, []⟩

/-- Modelled from the spec (see `Weighted`): record a raw score under a name. -/
def Weighted.insert (f : Weighted) (k : ObjKey) (v : Option ℚ) : Weighted :=
  { f with scores := f.scores ++ [(k, v)] }

/-- Look up the most recently inserted score for a name. -/
def Weighted.get (f : Weighted) (k : ObjKey) : Option (Option ℚ) :=
  (f.scores.reverse.find? (fun p => decide (p.1 = k))).map (fun p => p.2)

/-- Modelled from the spec: `CountMinSketch` (util/count_min_sketch.rs is not
among the provided sources).  Spec §4.3: an approximate multiset counter over
addresses; `insert(addr)` increments an estimate, `query(addr)` is
monotonically non-decreasing and never underestimates the true count.  The
exact per-address counter realizes this contract and is the model used here. -/
abbrev Sketch := ℕ → ℕ

/-- Modelled from the spec (see `Sketch`): increment the count of `a`. -/
def Sketch.insert (s : Sketch) (a : ℕ) : Sketch :=
  fun x => if x = a then s x + 1 else s x

/-- Modelled from the spec (see `Sketch`): the count estimate for `a`. -/
def Sketch.query (s : Sketch) (a : ℕ) : ℕ := s a

/-- Modelled from the spec: `roper::Creature` (the roper creature module is not
among the provided sources).  Spec §3 Genome/Candidate: a genetic payload, an
optional cached Fitness and an optional cached Run Profile, plus the `tag`
field set by the evaluator. -/
structure Creature where
  chromosome : List ℕ
  profile : Option Emu.Profile
  fitness : Option Weighted
  tag : ℕ
deriving DecidableEq

/-- Modelled from the spec: `Creature::set_fitness` (not among the provided
sources).  Spec §4.7: scoring is "memoized — once computed, reused until
explicitly invalidated (e.g., by producing a new candidate via crossover)",
and spec §8 requires that a cached fitness be preserved through a batch call;
hence setting a fitness on a creature that already carries one keeps the
cached value. -/
def Creature.set_fitness (c : Creature) (f : Weighted) : Creature :=
  if c.fitness.isSome then c else { c with fitness := some f }

/-- The set of addresses covered by the profile's basic-block paths
(evaluation.rs lines 28-36): for every block of every path, the addresses
`block.entry .. block.entry + block.size` (u64 arithmetic: the range is empty
when the end wraps below the start). -/
def visitedAddresses (p : Emu.Profile) : Finset ℕ :=
  p.paths.foldl
    (fun s path => path.foldl
      (fun s b => s ∪ Finset.Ico b.entry ((b.entry + b.size) % 2^64)) s)
    ∅

/-- The per-address loop of `code_coverage_ff` (evaluation.rs lines 38-41):
insert each visited address into the sketch, then add the (post-insertion)
query result to the frequency score.  The hash set's iteration order is
unspecified in the source; with the exact-counter sketch model distinct
addresses do not interact, so the result is order-independent and the loop is
run here in increasing address order. -/
def freqLoop : List ℕ → Sketch → ℚ → Sketch × ℚ
  | [], s, acc => (s, acc)
  | a :: rest, s, acc =>
    let s' := s.insert a
    freqLoop rest s' (acc + (s'.query a : ℚ))

/-- Model of `code_coverage_ff` (evaluation.rs lines 22-68), with the externally
obtained sizes passed explicitly: `code_size` is
`size_of_executable_memory()` and `S` is the writeable-memory size used by
`mem_ratio_written` (profiler.rs: `mem_write_ratio`).  A creature without a
profile is returned unchanged; otherwise the visited addresses are inserted
into the sketch and queried while scoring, and the four objective scores are
recorded. -/
def code_coverage_ff (code_size S : ℕ) (weights : List (ObjKey × ℚ))
    (c : Creature) (sketch : Sketch) : Creature × Sketch :=
  match c.profile with
  | none => (c, sketch)
  | some profile =>
    let addresses_visited := visitedAddresses profile
    let looped := freqLoop (addresses_visited.sort (· ≤ ·)) sketch 0
    let freq_score : ℚ := looped.2
    let num_addr_visit : ℚ := (addresses_visited.card : ℚ)
    let avg_freq : ℚ := if num_addr_visit < 1 then 1 else freq_score / num_addr_visit
    let code_coverage : Option ℚ := Emu.f64OneSub (Emu.f64Div num_addr_visit (code_size : ℚ))
    let fitness := Weighted.new weights
    let fitness := fitness.insert ObjKey.code_coverage code_coverage
    let fitness := fitness.insert ObjKey.code_frequency (some avg_freq)
    let fitness := fitness.insert ObjKey.gadgets_executed (some (profile.gadgets_executed.length : ℚ))
    let fitness := fitness.insert ObjKey.mem_ratio_written
      (Emu.f64OneSub (Emu.Profile.mem_write_frac S profile))
    (c.set_fitness fitness, looped.1)

/-- The combined batch of `eval_pipeline` (evaluation.rs lines 161-179):
partition the inbound batch by `profile.is_some()` into cached ("old") and
fresh creatures, submit only the fresh ones to the hatchery (`hatch` models
`execute_batch` of the external execution collaborator), attach the returned
profiles, and chain the cached creatures behind them. -/
def combinedBatch (hatch : List Creature → List (Creature × Emu.Profile))
    (inbound : List Creature) : List Creature :=
  let parts := inbound.partition (fun c => c.profile.isSome)
  (hatch parts.2).map (fun cp => { cp.1 with profile := some cp.2 }) ++ parts.1

/-- Model of `Evaluator::eval_pipeline` (evaluation.rs lines 161-184).  `ff` is the
fitness function held by the evaluator (`&mut self.sketch` becomes explicit
sketch state threaded through the scoring passes), `record` models
`Creature::record_genetic_frequency` (not among the provided sources; per its
use it only updates the sketch).  The combined batch is scored in order by
`ff`, then the record pass runs over every scored creature.  Returns the
scored batch and the final sketch state. -/
def eval_pipeline (hatch : List Creature → List (Creature × Emu.Profile))
    (ff : Creature → Sketch → Creature × Sketch)
    (record : Creature → Sketch → Sketch)
    (sketch : Sketch) (inbound : List Creature) : List Creature × Sketch :=
  let combined := combinedBatch hatch inbound
  let scored := combined.foldl
    (fun acc c =>
      let r := ff c acc.2
      (acc.1 ++ [r.1], r.2))
    ([], sketch)
  (scored.1, scored.1.foldl (fun s c => record c s) scored.2)

/-- The list of creatures produced by scoring `cs` in order starting from
sketch state `s`. -/
def scoreList (ff : Creature → Sketch → Creature × Sketch) :
    Sketch → List Creature → List Creature
  | _, [] => []
  | s, c :: rest => (ff c s).1 :: scoreList ff (ff c s).2 rest

/-- The sketch state after scoring `cs` in order starting from `s`. -/
def scanSketch (ff : Creature → Sketch → Creature × Sketch)
    (s : Sketch) (cs : List Creature) : Sketch :=
  cs.foldl (fun s c => (ff c s).2) s

/-- The named score of the `i`-th creature of a scored batch. -/
def scoreAt (cs : List Creature) (i : ℕ) (k : ObjKey) : Option (Option ℚ) :=
  match cs.get? i with
  | none => none
  | some c =>
    match c.fitness with
    | none => none
    | some w => w.get k

end Roper

namespace Hello

/-- Model of `ObserverConfig` from examples/hello_world.rs. -/
structure ObserverConfig where
  window_size : ℕ
deriving DecidableEq

/-- Model of `Config` from examples/hello_world.rs (the `f32` mutation rate as `ℚ`;
the target string as its byte list). -/
structure Config where
  mut_rate : ℚ
  init_len : ℕ
  pop_size : ℕ
  tournament_size : ℕ
  num_offspring : ℕ
  target : List ℕ
  observer : ObserverConfig
deriving DecidableEq

/-- Model of `Config::assert_invariants` (hello_world.rs lines 27-31):
`assert!(tournament_size >= num_offspring + 2)`.  (Defined in the source but
never called from `run`, `Epoch::new` or `Epoch::evolve`.) -/
def Config.assert_invariants (c : Config) : Bool :=
  decide (c.num_offspring + 2 ≤ c.tournament_size)

/-- Model of `Genome` from examples/hello_world.rs: a byte string and a memoized
fitness. -/
structure Genome where
  genes : List ℕ
  fitness : Option ℕ
deriving DecidableEq

/-- Model of `Genome::fitter_than` (hello_world.rs lines 69-74): strictly better only
when both fitnesses are present. -/
def fitter_than (a b : Genome) : Bool :=
  match a.fitness, b.fitness with
  | some x, some y => decide (x < y)
  | _, _ => false

/-- The evaluator actor of hello_world.rs (lines 302-309, via
`Evaluator::evaluate`): compute the fitness if absent, otherwise reuse the
memoized value.  `score` abstracts `distance::levenshtein(genes, target)`,
an external black-box distance per spec §6. -/
def evaluate (score : List ℕ → ℕ) (g : Genome) : Genome :=
  if g.fitness.isSome then g else { g with fitness := some (score g.genes) }

/-- The comparison used by `combatants.sort_by(|a, b| a.fitness.cmp(&b.fitness))`:
the `Ord` instance of `Option<usize>` (`None` before `Some`). -/
def fitLe (a b : Genome) : Bool :=
  match a.fitness, b.fitness with
  | none, _ => true
  | some _, none => false
  | some x, some y => decide (x ≤ y)

/-- Insert into a `fitLe`-sorted list (earlier-ranked elements first; an
element inserted behind all entries it does not strictly precede, matching a
stable ascending sort). -/
def insertSorted (g : Genome) : List Genome → List Genome
  | [] => [g]
  | h :: t => if fitLe g h then g :: h :: t else h :: insertSorted g t

/-- Stable ascending sort by fitness, modelling `sort_by` on the combatant
vector. -/
def sortByFitness : List Genome → List Genome
  | [] => []
  | h :: t => insertSorted h (sortByFitness t)

/-- The random draws consumed by one `Genome::mate` call: the two raw split
points (used modulo the parents' lengths), and per child the outcome of the
`rng.gen::<f32>() < mut_rate` test plus the raw index and the accepted
replacement byte of `Genome::mutate` (whose rejection-sampling loop is
modelled by the oracle supplying the byte it terminates with). -/
structure MateOracle where
  split_m : ℕ
  split_f : ℕ
  mut1 : Bool
  idx1 : ℕ
  byte1 : ℕ
  mut2 : Bool
  idx2 : ℕ
  byte2 : ℕ
deriving DecidableEq

/-- Model of `Genome::crossover` (hello_world.rs lines 78-94): split each parent at a
random point (`gen::<usize>() % len`, a division-by-zero panic on an empty
parent, modelled as `none`) and recombine head/tail; children carry no
fitness. -/
def crossover (g m : Genome) (sm sf : ℕ) : Option (Genome × Genome) :=
  if g.genes.length = 0 ∨ m.genes.length = 0 then none
  else
    let split_m := sm % g.genes.length
    let split_f := sf % m.genes.length
    some (⟨g.genes.take split_m ++ m.genes.drop split_f, none⟩,
      ⟨g.genes.drop split_m ++ m.genes.take split_f, none⟩)

/-- Model of `Genome::mutate` (hello_world.rs lines 96-107): overwrite the byte at a
random index (`gen::<usize>() % len`, a division-by-zero panic on an empty
genome) with the accepted replacement byte; the fitness field is not
touched. -/
def mutate (g : Genome) (ri c : ℕ) : Option Genome :=
  if g.genes.length = 0 then none
  else some { g with genes := g.genes.set (ri % g.genes.length) c }

/-- Model of `Genome::mate` (hello_world.rs lines 56-67): one crossover producing two
children, each then mutated when its `rng < mut_rate` draw (the oracle's
boolean) fires. -/
def mate (g f : Genome) (_params : Config) (o : MateOracle) : Option (List Genome) :=
  match crossover g f o.split_m o.split_f with
  | none => none
  | some (c1, c2) =>
    match (if o.mut1 then mutate c1 o.idx1 o.byte1 else some c1) with
    | none => none
    | some d1 =>
      match (if o.mut2 then mutate c2 o.idx2 o.byte2 else some c2) with
      | none => none
      | some d2 => some [d1, d2]

/-- Model of `Epoch` from examples/hello_world.rs. -/
structure Epoch where
  population : List Genome
  config : Config
  best : Option Genome
  iteration : ℕ
deriving DecidableEq

/-- Model of `Epoch::new` (hello_world.rs lines 134-145): a fresh population of
`pop_size` genomes with no fitness; the random strings sampled by
`Genome::new(init_len)` are supplied by the oracle `genes`.  No configuration
check is performed. -/
def Epoch.new (config : Config) (genes : ℕ → List ℕ) : Epoch :=
  { population := (List.range config.pop_size).map (fun i => ⟨genes i, none⟩),
    config := config, best := none, iteration := 0 }

/-- Model of `Epoch::update_best` (hello_world.rs lines 147-160). -/
def update_best (best : Option Genome) (champ : Genome) : Option Genome :=
  match best with
  | some b => if fitter_than champ b then some champ else some b
  | none => some champ

/-- The combatant draw of `Epoch::evolve` (hello_world.rs lines 173-182):
repeat `tournament_size` times: pop the last element of the population; if the
population is empty, log the shortfall and continue; otherwise evaluate the
combatant (the Observer send is a side channel with no effect on this state)
and push it onto the combatant vector.  Returns the combatants in draw order
and the remaining population. -/
def draw (score : List ℕ → ℕ) : ℕ → List Genome → List Genome × List Genome
  | 0, pop => ([], pop)
  | k + 1, pop =>
    match pop.getLast? with
    | none => draw score k pop
    | some g =>
      let next := draw score k pop.dropLast
      (evaluate score g :: next.1, next.2)

/-- The bystander loop of `Epoch::evolve` (hello_world.rs lines 193-198):
`bw` times, pop a combatant if any remains and push it back onto the
population.  Returns the remaining combatants and the grown population. -/
def requeueBystanders : ℕ → List Genome → List Genome → List Genome × List Genome
  | 0, comb, pop => (comb, pop)
  | k + 1, comb, pop =>
    match comb.getLast? with
    | none => requeueBystanders k comb pop
    | some c => requeueBystanders k comb.dropLast (pop ++ [c])

/-- Model of `usize` subtraction: underflow is modelled as the panic it causes (the
debug profile aborts at the subtraction itself; in release the wrapped count
makes the bystander loop drain every combatant and the subsequent
`pop().unwrap()` at parent selection panics — either way the generation
aborts). -/
def checkedSub (a b : ℕ) : Option ℕ :=
  if b ≤ a then some (a - b) else none

/-- Model of `Epoch::evolve` (hello_world.rs lines 166-261).  `shuffle` models the
uniform `population.shuffle(&mut rng)`; `score` the evaluator's distance
function; `o` the random draws of the single `mate` call.  `none` models a
panic (`combatants[0]` on an empty vector, `usize` underflow, or
`pop().unwrap()` at parent selection).  On success the new epoch holds the
untouched remainder of the population, the requeued bystanders, both parents
and the offspring, with the iteration counter advanced. -/
def evolve (score : List ℕ → ℕ) (shuffle : List Genome → List Genome)
    (e : Epoch) (o : MateOracle) : Option Epoch :=
  let drawn := draw score e.config.tournament_size (shuffle e.population)
  let sorted := sortByFitness drawn.1
  match sorted.head? with
  | none => none
  | some c0 =>
    let best := update_best e.best c0
    let culled := sorted.take (sorted.length - e.config.num_offspring)
    match checkedSub e.config.tournament_size (e.config.num_offspring + 2) with
    | none => none
    | some bw =>
      let rq := requeueBystanders bw culled drawn.2
      match rq.1.getLast? with
      | none => none
      | some mother =>
        match rq.1.dropLast.getLast? with
        | none => none
        | some father =>
          match mate mother father e.config o with
          | none => none
          | some offspring =>
            some
              { population := rq.2 ++ [mother, father] ++ offspring,
                config := e.config, best := best, iteration := e.iteration + 1 }

/-- The average computed by `Window::report` (hello_world.rs lines 349-357):
collect the fitnesses present in the frame and divide their sum by their
count as `f32`, with no emptiness check; the value is then logged. -/
def reportAvg (frame : List (Option Genome)) : Option ℚ :=
  let fitnesses : List ℕ := frame.filterMap (fun t => t.bind (fun x => x.fitness))
  Emu.f64Div ((fitnesses.sum : ℕ) : ℚ) (fitnesses.length : ℚ)

end Hello

/-! Concrete instances used by counterexamples and witnesses. -/

/-- The all-zero sketch state. -/
def sketch0 : Roper.Sketch := fun _ => 0

/-- A single-run profile whose only path is one block covering address 0. -/
def cxProfile : Emu.Profile :=
  ⟨[[⟨0, 1⟩]], [none], [0], [], [{}], [], [[]], true⟩

/-- A fresh creature (no profile, no fitness). -/
def cxCreature : Roper.Creature := ⟨[], none, none, 0⟩

/-- A hatchery model that assigns `cxProfile` to every submitted creature. -/
def cxHatch : List Roper.Creature → List (Roper.Creature × Emu.Profile) :=
  fun cs => cs.map (fun c => (c, cxProfile))

/-- A genetic-frequency recorder that leaves the sketch unchanged. -/
def cxRecord : Roper.Creature → Roper.Sketch → Roper.Sketch := fun _ s => s

/-- A creature already carrying a cached profile and fitness. -/
def oldCreature : Roper.Creature :=
  ⟨[3], some cxProfile, some (Roper.Weighted.new []), 7⟩

/-- A profile with no contained runs. -/
def emptyProfile : Emu.Profile := ⟨[], [], [], [], [], [], [], true⟩

/-- A profile whose single write log entry writes 2 bytes at address 0. -/
def cxWriteProfile : Emu.Profile :=
  ⟨[], [], [], [], [], [], [[⟨0, 0, 2, 0⟩]], true⟩

/-- A profile with a single 1-byte write at address 0. -/
def wWriteProfile : Emu.Profile :=
  ⟨[], [], [], [], [], [], [[⟨0, 0, 1, 0⟩]], true⟩

/-- A constant-zero distance function. -/
def score0 : List ℕ → ℕ := fun _ => 0

/-- A mate oracle with zero split points and no mutation. -/
def oracle0 : Hello.MateOracle := ⟨0, 0, false, 0, 0, false, 0, 0⟩

/-- A one-byte genome with no fitness. -/
def g65 : Hello.Genome := ⟨[65], none⟩

/-- tournament_size 3, num_offspring 1: a valid configuration. -/
def cfgC4 : Hello.Config := ⟨0, 1, 3, 3, 1, [], ⟨1⟩⟩

/-- Three one-byte genomes under `cfgC4`. -/
def epochC4 : Hello.Epoch := ⟨[g65, g65, g65], cfgC4, none, 0⟩

/-- tournament_size 3, num_offspring 2: violates
`tournament_size ≥ num_offspring + 2`. -/
def cfgBad : Hello.Config := ⟨0, 1, 3, 3, 2, [], ⟨1⟩⟩

/-- A constant genome sampler for `Epoch::new`. -/
def genes0 : ℕ → List ℕ := fun _ => [65]

/-- The epoch built at startup from the invalid configuration. -/
def epochBad : Hello.Epoch := Hello.Epoch.new cfgBad genes0

/-- A population of 2 under `cfgC4` (tournament_size 3). -/
def epochC7 : Hello.Epoch := ⟨[g65, g65], cfgC4, none, 0⟩

/-- tournament_size 4, num_offspring 2: a valid conserving configuration. -/
def cfgW : Hello.Config := ⟨0, 1, 4, 4, 2, [], ⟨1⟩⟩

/-- Four one-byte genomes under `cfgW`. -/
def epochW : Hello.Epoch := ⟨[g65, g65, g65, g65], cfgW, none, 0⟩

/-- A population of 1 under `cfgC4` (tournament_size 3). -/
def epochC7b : Hello.Epoch := ⟨[g65], cfgC4, none, 0⟩

namespace Emu

/-- The operation `absorb` is associative: fields concatenate and `&&` is associative. -/
theorem absorb_assoc (p q r : Profile) :
    (p.absorb q).absorb r = p.absorb (q.absorb r) := by
  simp [Profile.absorb, Bool.and_assoc]

/-- Peeling one profiler off the front of `collate`. -/
theorem collate_cons (p : Profiler) (ps : List Profiler) :
    Profile.collate (p :: ps) = (Profile.of_profiler p).absorb (Profile.collate ps) := by
  simp [Profile.collate, Profile.of_profiler, Profile.absorb]

/-- The operation `collate` splits over list append as an `absorb`. -/
theorem collate_append (xs ys : List Profiler) :
    Profile.collate (xs ++ ys) = (Profile.collate xs).absorb (Profile.collate ys) := by
  simp [Profile.collate, Profile.absorb]

/-- Absorbing an empty collation is the identity. -/
theorem absorb_collate_nil (p : Profile) :
    p.absorb (Profile.collate []) = p := by
  simp [Profile.collate, Profile.absorb]

/-- Folding `absorb ∘ of_profiler` over a list amounts to absorbing its
collation. -/
theorem foldl_absorb_eq_absorb_collate (a : Profile) (l : List Profiler) :
    l.foldl (fun acc q => acc.absorb (Profile.of_profiler q)) a
      = a.absorb (Profile.collate l) := by
  induction l generalizing a with
  | nil => simpa using (absorb_collate_nil a).symm
  | cons q l ih =>
    simp only [List.foldl_cons, ih, collate_cons]
    rw [absorb_assoc]

end Emu

/-- Claim C2: for every list of run records, `Profile::collate` of the whole
list equals starting from the single-run profile of the first record and
absorbing the single-run profile of each remaining record in list order. -/
theorem collate_refines_iterated_absorb (r : Emu.Profiler) (rs : List Emu.Profiler) :
    Emu.Profile.collate (r :: rs)
      = rs.foldl (fun acc q => acc.absorb (Emu.Profile.of_profiler q))
          (Emu.Profile.of_profiler r) := by
  rw [Emu.foldl_absorb_eq_absorb_collate, Emu.collate_cons]

/-- Claim C3: `absorb` is associative along the run dimension — absorbing the
collation of `xs ++ ys` equals absorbing the collation of `xs` and then the
collation of `ys` — and on any two profiles `absorb` concatenates every
per-run field in order and ANDs the `executable` flags. -/
theorem absorb_associative_and_fieldwise (p q : Emu.Profile) (xs ys : List Emu.Profiler) :
    (p.absorb (Emu.Profile.collate (xs ++ ys))
        = (p.absorb (Emu.Profile.collate xs)).absorb (Emu.Profile.collate ys))
    ∧ (p.absorb q).paths = p.paths ++ q.paths
    ∧ (p.absorb q).cpu_errors = p.cpu_errors ++ q.cpu_errors
    ∧ (p.absorb q).emulation_times = p.emulation_times ++ q.emulation_times
    ∧ (p.absorb q).registers = p.registers ++ q.registers
    ∧ (p.absorb q).gadgets_executed = p.gadgets_executed ++ q.gadgets_executed
    ∧ (p.absorb q).write_logs = p.write_logs ++ q.write_logs
    ∧ (p.absorb q).executable = (p.executable && q.executable) := by
  refine ⟨?_, rfl, rfl, rfl, rfl, rfl, rfl, rfl⟩
  rw [Emu.collate_append, Emu.absorb_assoc]

namespace Roper

/-- The scoring fold of `eval_pipeline` decomposes into the scored list and
the scanned sketch. -/
theorem eval_fold_eq (ff : Creature → Sketch → Creature × Sketch) :
    ∀ (cs : List Creature) (acc : List Creature) (s : Sketch),
      cs.foldl (fun acc c => ((acc.1 ++ [(ff c acc.2).1], (ff c acc.2).2))) (acc, s)
        = (acc ++ scoreList ff s cs, scanSketch ff s cs) := by
  intro cs
  induction cs with
  | nil => intro acc s; simp [scoreList, scanSketch]
  | cons c rest ih =>
    intro acc s
    simp only [List.foldl_cons, ih, scoreList, scanSketch, List.foldl_cons,
      List.append_assoc, List.singleton_append]

/-- The pipeline `eval_pipeline` in closed form: score the combined batch in order, then
run the record pass over the scored batch. -/
theorem eval_pipeline_eq (hatch : List Creature → List (Creature × Emu.Profile))
    (ff : Creature → Sketch → Creature × Sketch)
    (record : Creature → Sketch → Sketch) (s0 : Sketch) (inbound : List Creature) :
    eval_pipeline hatch ff record s0 inbound
      = (scoreList ff s0 (combinedBatch hatch inbound),
          (scoreList ff s0 (combinedBatch hatch inbound)).foldl (fun s c => record c s)
            (scanSketch ff s0 (combinedBatch hatch inbound))) := by
  unfold eval_pipeline
  dsimp only
  rw [eval_fold_eq ff (combinedBatch hatch inbound) [] s0]
  simp

/-- Each element of the scored list is the fitness function applied at the
sketch state accumulated over the preceding batch elements. -/
theorem scoreList_get? (ff : Creature → Sketch → Creature × Sketch) :
    ∀ (cs : List Creature) (s : Sketch) (i : ℕ),
      (scoreList ff s cs).get? i
        = (cs.get? i).map (fun c => (ff c (scanSketch ff s (cs.take i))).1) := by
  intro cs
  induction cs with
  | nil => intro s i; simp [scoreList]
  | cons c rest ih =>
    intro s i
    cases i with
    | zero => simp [scoreList, scanSketch]
    | succ i => simpa [scoreList, scanSketch] using ih (ff c s).2 i

end Roper

namespace Roper

/-- Creatures that the fitness function returns unchanged from every sketch
state pass through the scoring pass unchanged. -/
theorem mem_scoreList (ff : Creature → Sketch → Creature × Sketch) :
    ∀ (cs : List Creature) (s : Sketch) (c : Creature),
      c ∈ cs → (∀ s', (ff c s').1 = c) → c ∈ scoreList ff s cs := by
  intro cs
  induction cs with
  | nil => intro s c h _; simp at h
  | cons d rest ih =>
    intro s c hmem hfix
    rcases List.mem_cons.mp hmem with h | h
    · subst h
      simp [scoreList, hfix]
    · exact List.mem_cons.mpr (Or.inr (ih (ff d s).2 c h hfix))

/-- The function `code_coverage_ff` returns a creature with a cached fitness unchanged
(the sketch may still advance): `set_fitness` keeps the memoized value. -/
theorem code_coverage_ff_fixed (code_size S : ℕ) (w : List (ObjKey × ℚ))
    (c : Creature) (s : Sketch) (hc : c.fitness.isSome = true) :
    (code_coverage_ff code_size S w c s).1 = c := by
  unfold code_coverage_ff
  cases hp : c.profile with
  | none => rfl
  | some p => simp [Creature.set_fitness, hc]

end Roper

/-- Claim C1 (amended): in `eval_pipeline` the combined batch (hatched fresh
candidates followed by the cached ones) is scored sequentially with the
Frequency Sketch threaded through the fitness function, so the `i`-th
candidate is scored against the sketch state left behind by scoring the `i-1`
preceding candidates of the same batch — not against the pre-batch snapshot —
and only the genetic-frequency record pass runs after all candidates are
scored. -/
theorem eval_pipeline_scores_sequentially
    (hatch : List Roper.Creature → List (Roper.Creature × Emu.Profile))
    (ff : Roper.Creature → Roper.Sketch → Roper.Creature × Roper.Sketch)
    (record : Roper.Creature → Roper.Sketch → Roper.Sketch)
    (s0 : Roper.Sketch) (inbound : List Roper.Creature) :
    (∀ i : ℕ,
      (Roper.eval_pipeline hatch ff record s0 inbound).1.get? i
        = ((Roper.combinedBatch hatch inbound).get? i).map
            (fun c =>
              (ff c (Roper.scanSketch ff s0 ((Roper.combinedBatch hatch inbound).take i))).1))
    ∧ (Roper.eval_pipeline hatch ff record s0 inbound).2
        = (Roper.eval_pipeline hatch ff record s0 inbound).1.foldl
            (fun s c => record c s)
            (Roper.scanSketch ff s0 (Roper.combinedBatch hatch inbound)) := by
  constructor
  · intro i
    rw [Roper.eval_pipeline_eq]
    simpa using Roper.scoreList_get? ff (Roper.combinedBatch hatch inbound) s0 i
  · rw [Roper.eval_pipeline_eq]

/-- Claim C1 (counterexample): two identical fresh candidates whose run
profile covers address 0, scored by `code_coverage_ff` in one
`eval_pipeline` batch starting from the empty sketch.  The second candidate's
`code_frequency` score is 2, while the same candidate scored against the
pre-batch sketch state scores 1: its fitness depends on the sketch insertions
made on behalf of the first candidate of the batch. -/
theorem eval_pipeline_prebatch_cx :
    Roper.scoreAt
        (Roper.eval_pipeline cxHatch (Roper.code_coverage_ff 16 8 []) cxRecord sketch0
          [cxCreature, cxCreature]).1 1 Roper.ObjKey.code_frequency = some (some 2)
    ∧ Roper.scoreAt
        [(Roper.code_coverage_ff 16 8 [] { cxCreature with profile := some cxProfile } sketch0).1]
        0 Roper.ObjKey.code_frequency = some (some 1)
    ∧ some (some (2 : ℚ)) ≠ some (some (1 : ℚ)) := by
  refine ⟨?_, ?_, by decide⟩
  · rw [Roper.eval_pipeline_eq]
    norm_num [Roper.scoreAt, Roper.scoreList, Roper.combinedBatch, cxHatch, cxCreature, cxProfile,
      Roper.code_coverage_ff, Roper.visitedAddresses, Roper.freqLoop, Roper.Sketch.insert,
      Roper.Sketch.query, Roper.Weighted.new, Roper.Weighted.insert, Roper.Weighted.get,
      Roper.Creature.set_fitness, sketch0, Emu.f64Div, Emu.f64OneSub, Emu.Profile.mem_write_frac,
      Emu.Profile.addresses_written_to, Finset.range_one, Finset.sort_singleton, List.partition]
    decide
  · norm_num [Roper.scoreAt, cxCreature, cxProfile,
      Roper.code_coverage_ff, Roper.visitedAddresses, Roper.freqLoop, Roper.Sketch.insert,
      Roper.Sketch.query, Roper.Weighted.new, Roper.Weighted.insert, Roper.Weighted.get,
      Roper.Creature.set_fitness, sketch0, Emu.f64Div, Emu.f64OneSub, Emu.Profile.mem_write_frac,
      Emu.Profile.addresses_written_to, Finset.range_one, Finset.sort_singleton]
    decide

/-- Claim C8: in `eval_pipeline`, every inbound candidate that already carries
a cached profile and fitness appears unchanged in the scored batch (its
cached profile and fitness survive the batch call), and the pipeline's result
depends on the hatchery only through the profile-less partition — i.e. only
the fresh candidates are submitted to the execution collaborator. -/
theorem eval_pipeline_memoization (code_size S : ℕ) (w : List (Roper.ObjKey × ℚ))
    (hatch hatch2 : List Roper.Creature → List (Roper.Creature × Emu.Profile))
    (record : Roper.Creature → Roper.Sketch → Roper.Sketch)
    (s0 : Roper.Sketch) (inbound : List Roper.Creature) :
    (∀ c ∈ inbound, c.profile.isSome = true → c.fitness.isSome = true →
      c ∈ (Roper.eval_pipeline hatch (Roper.code_coverage_ff code_size S w) record s0 inbound).1)
    ∧ (hatch (inbound.partition (fun c => c.profile.isSome)).2
          = hatch2 (inbound.partition (fun c => c.profile.isSome)).2 →
        Roper.eval_pipeline hatch (Roper.code_coverage_ff code_size S w) record s0 inbound
          = Roper.eval_pipeline hatch2 (Roper.code_coverage_ff code_size S w) record s0 inbound) := by
  constructor
  · intro c hmem hprof hfit
    rw [Roper.eval_pipeline_eq]
    have hcomb : c ∈ Roper.combinedBatch hatch inbound := by
      unfold Roper.combinedBatch
      dsimp only
      refine List.mem_append.mpr (Or.inr ?_)
      rw [List.partition_eq_filter_filter]
      exact List.mem_filter.mpr ⟨hmem, hprof⟩
    exact Roper.mem_scoreList _ _ s0 c hcomb
      (fun s' => Roper.code_coverage_ff_fixed code_size S w c s' hfit)
  · intro h
    have hcb : Roper.combinedBatch hatch inbound = Roper.combinedBatch hatch2 inbound := by
      unfold Roper.combinedBatch
      dsimp only
      rw [h]
    rw [Roper.eval_pipeline_eq, Roper.eval_pipeline_eq, hcb]

/-- Witness for C8: a creature with cached profile and fitness survives a
concrete batch call unchanged. -/
theorem eval_pipeline_memoization_witness :
    oldCreature ∈
      (Roper.eval_pipeline cxHatch (Roper.code_coverage_ff 16 8 []) cxRecord sketch0
        [oldCreature]).1 :=
  (eval_pipeline_memoization 16 8 [] cxHatch cxHatch cxRecord sketch0 [oldCreature]).1
    oldCreature (by simp) (by decide) (by decide)

namespace Hello

theorem fitLe_refl (a : Genome) : fitLe a a = true := by
  unfold fitLe
  cases a.fitness <;> simp

theorem fitLe_total (a b : Genome) : fitLe a b = true ∨ fitLe b a = true := by
  cases ha : a.fitness <;> cases hb : b.fitness <;> simp [fitLe, ha, hb]
  omega

theorem fitLe_trans {a b c : Genome} (h1 : fitLe a b = true) (h2 : fitLe b c = true) :
    fitLe a c = true := by
  cases ha : a.fitness <;> cases hb : b.fitness <;> cases hc : c.fitness <;>
    simp [fitLe, ha, hb, hc] at *
  omega

theorem insertSorted_perm (g : Genome) (l : List Genome) :
    (insertSorted g l).Perm (g :: l) := by
  induction l with
  | nil => simp [insertSorted]
  | cons h t ih =>
    unfold insertSorted
    by_cases hle : fitLe g h
    · simp [hle]
    · simp only [hle, if_neg, Bool.not_eq_true]
      exact (ih.cons h).trans (List.Perm.swap g h t)

theorem sortByFitness_perm (l : List Genome) : (sortByFitness l).Perm l := by
  induction l with
  | nil => simp [sortByFitness]
  | cons h t ih =>
    exact (insertSorted_perm h (sortByFitness t)).trans (ih.cons h)

theorem sortByFitness_length (l : List Genome) : (sortByFitness l).length = l.length :=
  (sortByFitness_perm l).length_eq

theorem insertSorted_pairwise (g : Genome) (l : List Genome)
    (hl : l.Pairwise (fun a b => fitLe a b = true)) :
    (insertSorted g l).Pairwise (fun a b => fitLe a b = true) := by
  induction l with
  | nil => simp [insertSorted]
  | cons h t ih =>
    unfold insertSorted
    by_cases hle : fitLe g h
    · rw [if_pos hle]
      refine List.Pairwise.cons ?_ hl
      intro x hx
      rcases List.mem_cons.mp hx with hx | hx
      · subst hx; exact hle
      · exact fitLe_trans hle (List.rel_of_pairwise_cons hl hx)
    · rw [if_neg hle]
      refine List.Pairwise.cons ?_ (ih hl.tail)
      intro x hx
      have hx' : x ∈ g :: t := (insertSorted_perm g t).mem_iff.mp hx
      rcases List.mem_cons.mp hx' with hx' | hx'
      · rw [hx']
        rcases fitLe_total g h with hgh | hhg
        · exact absurd hgh hle
        · exact hhg
      · exact List.rel_of_pairwise_cons hl hx'

theorem sortByFitness_pairwise (l : List Genome) :
    (sortByFitness l).Pairwise (fun a b => fitLe a b = true) := by
  induction l with
  | nil => simp [sortByFitness]
  | cons h t ih => exact insertSorted_pairwise h (sortByFitness t) ih

end Hello

namespace Hello

theorem draw_nil (score : List ℕ → ℕ) : ∀ k, draw score k [] = ([], []) := by
  intro k
  induction k with
  | zero => rfl
  | succ k ih => simp [draw, ih]

theorem draw_concat (score : List ℕ → ℕ) (k : ℕ) (xs : List Genome) (x : Genome) :
    draw score (k + 1) (xs ++ [x])
      = (evaluate score x :: (draw score k xs).1, (draw score k xs).2) := by
  simp [draw, List.getLast?_concat, List.dropLast_concat]

theorem draw_spec (score : List ℕ → ℕ) :
    ∀ (k : ℕ) (pop : List Genome), k ≤ pop.length →
      draw score k pop
        = ((pop.reverse.take k).map (evaluate score), pop.take (pop.length - k)) := by
  intro k
  induction k with
  | zero => intro pop _; simp [draw]
  | succ k ih =>
    intro pop h
    rcases List.eq_nil_or_concat pop with rfl | ⟨xs, x, rfl⟩
    · simp at h
    · rw [List.concat_eq_append] at *
      rw [draw_concat]
      have hx : k ≤ xs.length := by
        simp at h
        omega
      rw [ih xs hx]
      have hlen : (xs ++ [x]).length - (k + 1) = xs.length - k := by
        simp
      rw [hlen]
      have htk : (xs ++ [x]).take (xs.length - k) = xs.take (xs.length - k) :=
        List.take_append_of_le_length (by omega)
      rw [htk]
      simp

theorem draw_length (score : List ℕ → ℕ) :
    ∀ (k : ℕ) (pop : List Genome), (draw score k pop).1.length = min k pop.length := by
  intro k
  induction k with
  | zero => intro pop; simp [draw]
  | succ k ih =>
    intro pop
    rcases List.eq_nil_or_concat pop with rfl | ⟨xs, x, rfl⟩
    · simp [draw_nil]
    · rw [List.concat_eq_append, draw_concat]
      simp [ih]
      omega

theorem requeue_spec :
    ∀ (bw : ℕ) (comb pop : List Genome), bw ≤ comb.length →
      requeueBystanders bw comb pop
        = (comb.take (comb.length - bw), pop ++ (comb.drop (comb.length - bw)).reverse) := by
  intro bw
  induction bw with
  | zero => intro comb pop _; simp [requeueBystanders]
  | succ bw ih =>
    intro comb pop h
    rcases List.eq_nil_or_concat comb with rfl | ⟨xs, x, rfl⟩
    · simp at h
    · rw [List.concat_eq_append] at *
      have hx : bw ≤ xs.length := by
        simp at h
        omega
      have hstep : requeueBystanders (bw + 1) (xs ++ [x]) pop
          = requeueBystanders bw xs (pop ++ [x]) := by
        simp [requeueBystanders, List.getLast?_concat, List.dropLast_concat]
      rw [hstep, ih xs (pop ++ [x]) hx]
      have hlen : (xs ++ [x]).length - (bw + 1) = xs.length - bw := by
        simp
      rw [hlen]
      have htk : (xs ++ [x]).take (xs.length - bw) = xs.take (xs.length - bw) :=
        List.take_append_of_le_length (by omega)
      have hdr : (xs ++ [x]).drop (xs.length - bw) = xs.drop (xs.length - bw) ++ [x] :=
        List.drop_append_of_le_length (by omega)
      rw [htk, hdr]
      simp

theorem requeue_length :
    ∀ (bw : ℕ) (comb pop : List Genome),
      (requeueBystanders bw comb pop).1.length = comb.length - bw := by
  intro bw
  induction bw with
  | zero => intro comb pop; simp [requeueBystanders]
  | succ bw ih =>
    intro comb pop
    rcases List.eq_nil_or_concat comb with rfl | ⟨xs, x, rfl⟩
    · simp [requeueBystanders, ih]
    · rw [List.concat_eq_append]
      have hstep : requeueBystanders (bw + 1) (xs ++ [x]) pop
          = requeueBystanders bw xs (pop ++ [x]) := by
        simp [requeueBystanders, List.getLast?_concat, List.dropLast_concat]
      rw [hstep, ih]
      simp

theorem evaluate_genes (score : List ℕ → ℕ) (g : Genome) :
    (evaluate score g).genes = g.genes := by
  unfold evaluate
  split <;> rfl

end Hello

namespace Hello

theorem crossover_some (g f : Genome) (sm sf : ℕ) (hg : g.genes ≠ []) (hf : f.genes ≠ []) :
    crossover g f sm sf
      = some (⟨g.genes.take (sm % g.genes.length) ++ f.genes.drop (sf % f.genes.length), none⟩,
          ⟨g.genes.drop (sm % g.genes.length) ++ f.genes.take (sf % f.genes.length), none⟩) := by
  have hgl : 0 < g.genes.length := List.length_pos.mpr hg
  have hfl : 0 < f.genes.length := List.length_pos.mpr hf
  unfold crossover
  rw [if_neg (by push_neg; omega)]

theorem mutate_some (c : Genome) (i b : ℕ) (hc : 0 < c.genes.length) :
    mutate c i b = some { c with genes := c.genes.set (i % c.genes.length) b } := by
  unfold mutate
  rw [if_neg (by omega)]

theorem mate_succeeds (g f : Genome) (params : Config) (o : MateOracle)
    (hg : g.genes ≠ []) (hf : f.genes ≠ []) :
    ∃ d1 d2, mate g f params o = some [d1, d2] := by
  have hgl : 0 < g.genes.length := List.length_pos.mpr hg
  have hfl : 0 < f.genes.length := List.length_pos.mpr hf
  have h1 : 0 < (g.genes.take (o.split_m % g.genes.length)
      ++ f.genes.drop (o.split_f % f.genes.length)).length := by
    have := Nat.mod_lt o.split_f hfl
    simp only [List.length_append, List.length_take, List.length_drop]
    omega
  have h2 : 0 < (g.genes.drop (o.split_m % g.genes.length)
      ++ f.genes.take (o.split_f % f.genes.length)).length := by
    have := Nat.mod_lt o.split_m hgl
    simp only [List.length_append, List.length_take, List.length_drop]
    omega
  obtain ⟨d1, hd1⟩ : ∃ d,
      (if o.mut1
        then mutate ⟨g.genes.take (o.split_m % g.genes.length)
          ++ f.genes.drop (o.split_f % f.genes.length), none⟩ o.idx1 o.byte1
        else some ⟨g.genes.take (o.split_m % g.genes.length)
          ++ f.genes.drop (o.split_f % f.genes.length), none⟩) = some d := by
    cases o.mut1
    · exact ⟨_, rfl⟩
    · exact ⟨_, by rw [if_pos rfl, mutate_some _ _ _ h1]⟩
  obtain ⟨d2, hd2⟩ : ∃ d,
      (if o.mut2
        then mutate ⟨g.genes.drop (o.split_m % g.genes.length)
          ++ f.genes.take (o.split_f % f.genes.length), none⟩ o.idx2 o.byte2
        else some ⟨g.genes.drop (o.split_m % g.genes.length)
          ++ f.genes.take (o.split_f % f.genes.length), none⟩) = some d := by
    cases o.mut2
    · exact ⟨_, rfl⟩
    · exact ⟨_, by rw [if_pos rfl, mutate_some _ _ _ h2]⟩
  refine ⟨d1, d2, ?_⟩
  unfold mate
  rw [crossover_some g f o.split_m o.split_f hg hf]
  dsimp only
  rw [hd1]
  dsimp only
  rw [hd2]

end Hello

namespace Hello

theorem evolve_success_shape (score : List ℕ → ℕ) (shuffle : List Genome → List Genome)
    (e : Epoch) (o : MateOracle)
    (hsize : e.config.tournament_size ≤ (shuffle e.population).length)
    (hvalid : e.config.num_offspring + 2 ≤ e.config.tournament_size)
    (hgenes : ∀ g ∈ shuffle e.population, g.genes ≠ []) :
    ∃ (a b : Genome) (rest : List Genome) (d1 d2 : Genome),
      sortByFitness (draw score e.config.tournament_size (shuffle e.population)).1
          = a :: b :: rest
      ∧ (a :: b :: rest).length = e.config.tournament_size
      ∧ mate b a e.config o = some [d1, d2]
      ∧ evolve score shuffle e o = some
          { population := (draw score e.config.tournament_size (shuffle e.population)).2
              ++ (((a :: b :: rest).take
                    (e.config.tournament_size - e.config.num_offspring)).drop 2).reverse
              ++ [b, a] ++ [d1, d2],
            config := e.config,
            best := update_best e.best a,
            iteration := e.iteration + 1 } := by
  have hlen : (draw score e.config.tournament_size (shuffle e.population)).1.length
      = e.config.tournament_size := by
    rw [draw_length]
    omega
  have hslen : (sortByFitness (draw score e.config.tournament_size (shuffle e.population)).1).length
      = e.config.tournament_size := by
    rw [sortByFitness_length, hlen]
  obtain ⟨a, b, rest, hs⟩ : ∃ a b rest,
      sortByFitness (draw score e.config.tournament_size (shuffle e.population)).1
        = a :: b :: rest := by
    cases hsort : sortByFitness (draw score e.config.tournament_size (shuffle e.population)).1 with
    | nil =>
      rw [hsort] at hslen
      simp at hslen
      omega
    | cons a tl =>
      cases tl with
      | nil =>
        rw [hsort] at hslen
        simp at hslen
        omega
      | cons b rest => exact ⟨a, b, rest, rfl⟩
  -- the two parents are evaluated members of the shuffled population; their genes are nonempty
  have hmem : ∀ x ∈ (a :: b :: rest), x.genes ≠ [] := by
    intro x hx
    have hx1 : x ∈ (draw score e.config.tournament_size (shuffle e.population)).1 := by
      have hperm := sortByFitness_perm
        (draw score e.config.tournament_size (shuffle e.population)).1
      rw [hs] at hperm
      exact hperm.mem_iff.mp hx
    rw [draw_spec score e.config.tournament_size (shuffle e.population) hsize] at hx1
    simp only [List.mem_map] at hx1
    obtain ⟨g0, hg0, rfl⟩ := hx1
    rw [evaluate_genes]
    exact hgenes g0 (List.mem_reverse.mp (List.mem_of_mem_take hg0))
  obtain ⟨d1, d2, hmate⟩ := mate_succeeds b a e.config o
    (hmem b (by simp)) (hmem a (by simp))
  refine ⟨a, b, rest, d1, d2, hs, by rw [← hs]; exact hslen, hmate, ?_⟩
  unfold evolve
  dsimp only
  rw [hs]
  dsimp only [List.head?]
  have hcull_len : (a :: b :: rest).length - e.config.num_offspring
      = e.config.tournament_size - e.config.num_offspring := by
    rw [← hs, hslen]
  rw [hcull_len]
  have hsub : checkedSub e.config.tournament_size (e.config.num_offspring + 2)
      = some (e.config.tournament_size - (e.config.num_offspring + 2)) := by
    unfold checkedSub
    rw [if_pos hvalid]
  rw [hsub]
  dsimp only
  have hculllen : ((a :: b :: rest).take
      (e.config.tournament_size - e.config.num_offspring)).length
      = e.config.tournament_size - e.config.num_offspring := by
    rw [List.length_take, ← hs, hslen]
    omega
  have hbwle : e.config.tournament_size - (e.config.num_offspring + 2)
      ≤ ((a :: b :: rest).take (e.config.tournament_size - e.config.num_offspring)).length := by
    rw [hculllen]
    omega
  rw [requeue_spec _ _ _ hbwle]
  dsimp only
  rw [hculllen]
  have htwo : e.config.tournament_size - e.config.num_offspring
      - (e.config.tournament_size - (e.config.num_offspring + 2)) = 2 := by
    omega
  rw [htwo]
  have htk2 : ((a :: b :: rest).take
      (e.config.tournament_size - e.config.num_offspring)).take 2 = [a, b] := by
    rw [List.take_take]
    have : min 2 (e.config.tournament_size - e.config.num_offspring) = 2 := by
      omega
    rw [this]
    rfl
  rw [htk2]
  rw [show ([a, b] : List Genome).getLast? = some b from rfl]
  dsimp only
  rw [show ([a, b] : List Genome).dropLast.getLast? = some a from rfl]
  dsimp only
  rw [hmate]

end Hello

/-- Claim C7 (amended): when the population is smaller than
`tournament_size`, the draw yields fewer combatants than requested (the
shortfall only being logged), but `Epoch::evolve` does not complete the
generation: fewer than 2 combatants survive culling and the bystander
requeue, so the generation aborts (panics) at parent selection — for every
such epoch `evolve` ends in the panic state. -/
theorem evolve_small_population_panics (score : List ℕ → ℕ)
    (shuffle : List Hello.Genome → List Hello.Genome) (e : Hello.Epoch) (o : Hello.MateOracle)
    (hperm : (shuffle e.population).Perm e.population)
    (hsmall : e.population.length < e.config.tournament_size) :
    Hello.evolve score shuffle e o = none := by
  have hp : (shuffle e.population).length < e.config.tournament_size := by
    rw [hperm.length_eq]
    exact hsmall
  have hclen : (Hello.draw score e.config.tournament_size (shuffle e.population)).1.length
      = (shuffle e.population).length := by
    rw [Hello.draw_length]
    omega
  have hslen : (Hello.sortByFitness
      (Hello.draw score e.config.tournament_size (shuffle e.population)).1).length
      = (shuffle e.population).length := by
    rw [Hello.sortByFitness_length, hclen]
  unfold Hello.evolve
  dsimp only
  cases hhead : (Hello.sortByFitness
      (Hello.draw score e.config.tournament_size (shuffle e.population)).1).head? with
  | none => rfl
  | some c0 =>
    dsimp only
    cases hsub : Hello.checkedSub e.config.tournament_size (e.config.num_offspring + 2) with
    | none => rfl
    | some bw =>
      dsimp only
      have hbw : e.config.num_offspring + 2 + bw = e.config.tournament_size := by
        unfold Hello.checkedSub at hsub
        by_cases hv : e.config.num_offspring + 2 ≤ e.config.tournament_size
        · rw [if_pos hv] at hsub
          simp at hsub
          omega
        · rw [if_neg hv] at hsub
          simp at hsub
      have hremlen : (Hello.requeueBystanders bw
          ((Hello.sortByFitness
            (Hello.draw score e.config.tournament_size (shuffle e.population)).1).take
              ((Hello.sortByFitness
                (Hello.draw score e.config.tournament_size (shuffle e.population)).1).length
                - e.config.num_offspring))
          (Hello.draw score e.config.tournament_size (shuffle e.population)).2).1.length ≤ 1 := by
        rw [Hello.requeue_length]
        simp only [List.length_take]
        omega
      cases hlast : (Hello.requeueBystanders bw
          ((Hello.sortByFitness
            (Hello.draw score e.config.tournament_size (shuffle e.population)).1).take
              ((Hello.sortByFitness
                (Hello.draw score e.config.tournament_size (shuffle e.population)).1).length
                - e.config.num_offspring))
          (Hello.draw score e.config.tournament_size (shuffle e.population)).2).1.getLast? with
      | none => rfl
      | some mother =>
        dsimp only
        have hne : (Hello.requeueBystanders bw
            ((Hello.sortByFitness
              (Hello.draw score e.config.tournament_size (shuffle e.population)).1).take
                ((Hello.sortByFitness
                  (Hello.draw score e.config.tournament_size (shuffle e.population)).1).length
                  - e.config.num_offspring))
            (Hello.draw score e.config.tournament_size (shuffle e.population)).2).1 ≠ [] := by
          intro hnil
          rw [hnil] at hlast
          simp at hlast
        have hone : (Hello.requeueBystanders bw
            ((Hello.sortByFitness
              (Hello.draw score e.config.tournament_size (shuffle e.population)).1).take
                ((Hello.sortByFitness
                  (Hello.draw score e.config.tournament_size (shuffle e.population)).1).length
                  - e.config.num_offspring))
            (Hello.draw score e.config.tournament_size (shuffle e.population)).2).1.length = 1 := by
          have := List.length_pos.mpr hne
          omega
        have hdrop : (Hello.requeueBystanders bw
            ((Hello.sortByFitness
              (Hello.draw score e.config.tournament_size (shuffle e.population)).1).take
                ((Hello.sortByFitness
                  (Hello.draw score e.config.tournament_size (shuffle e.population)).1).length
                  - e.config.num_offspring))
            (Hello.draw score e.config.tournament_size (shuffle e.population)).2).1.dropLast
            = [] := by
          apply List.eq_nil_of_length_eq_zero
          rw [List.length_dropLast, hone]
        rw [hdrop]
        rfl

/-- Claim C4 (amended): in one tournament generation with a valid
configuration (`tournament_size ≥ num_offspring + 2`), at least
`tournament_size` candidates with nonempty genomes: exactly
`tournament_size − (num_offspring + 2)` bystander combatants are returned to
the population unchanged, the 2 best-ranked surviving combatants become the
parents and are returned, and exactly 2 children — produced by the single
crossover call of `mate`, each independently mutated when its mutation draw
fires — are added (the children count is always 2; it equals `num_offspring`
only when `num_offspring = 2`). -/
theorem evolve_tournament_structure (score : List ℕ → ℕ)
    (shuffle : List Hello.Genome → List Hello.Genome) (e : Hello.Epoch) (o : Hello.MateOracle)
    (hsize : e.config.tournament_size ≤ (shuffle e.population).length)
    (hvalid : e.config.num_offspring + 2 ≤ e.config.tournament_size)
    (hgenes : ∀ g ∈ shuffle e.population, g.genes ≠ []) :
    ∃ (father mother : Hello.Genome) (bystanders children rest : List Hello.Genome),
      Hello.evolve score shuffle e o = some
          { population := rest ++ bystanders ++ [mother, father] ++ children,
            config := e.config,
            best := Hello.update_best e.best father,
            iteration := e.iteration + 1 }
      ∧ rest = (Hello.draw score e.config.tournament_size (shuffle e.population)).2
      ∧ bystanders.length = e.config.tournament_size - (e.config.num_offspring + 2)
      ∧ (∀ x ∈ bystanders,
          x ∈ (Hello.draw score e.config.tournament_size (shuffle e.population)).1)
      ∧ (∀ x ∈ (Hello.draw score e.config.tournament_size (shuffle e.population)).1,
          Hello.fitLe father x = true)
      ∧ (∀ x ∈ (Hello.draw score e.config.tournament_size (shuffle e.population)).1,
          x = father ∨ Hello.fitLe mother x = true)
      ∧ Hello.mate mother father e.config o = some children
      ∧ children.length = 2 := by
  obtain ⟨a, b, rest', d1, d2, hs, hlen, hmate, hev⟩ :=
    Hello.evolve_success_shape score shuffle e o hsize hvalid hgenes
  have hperm := Hello.sortByFitness_perm
    (Hello.draw score e.config.tournament_size (shuffle e.population)).1
  rw [hs] at hperm
  have hpair := Hello.sortByFitness_pairwise
    (Hello.draw score e.config.tournament_size (shuffle e.population)).1
  rw [hs] at hpair
  refine ⟨a, b,
    (((a :: b :: rest').take (e.config.tournament_size - e.config.num_offspring)).drop 2).reverse,
    [d1, d2], (Hello.draw score e.config.tournament_size (shuffle e.population)).2,
    hev, rfl, ?_, ?_, ?_, ?_, hmate, rfl⟩
  · simp only [List.length_reverse, List.length_drop, List.length_take]
    have : (a :: b :: rest').length = e.config.tournament_size := hlen
    omega
  · intro x hx
    simp only [List.mem_reverse] at hx
    have hx1 : x ∈ (a :: b :: rest') := List.mem_of_mem_take (List.mem_of_mem_drop hx)
    exact hperm.subset hx1
  · intro x hx
    have hx1 : x ∈ (a :: b :: rest') := hperm.mem_iff.mpr hx
    rcases List.mem_cons.mp hx1 with h | h
    · rw [h]
      exact Hello.fitLe_refl a
    · exact List.rel_of_pairwise_cons hpair h
  · intro x hx
    have hx1 : x ∈ (a :: b :: rest') := hperm.mem_iff.mpr hx
    rcases List.mem_cons.mp hx1 with h | h
    · exact Or.inl h
    · rcases List.mem_cons.mp h with h2 | h2
      · rw [h2]
        exact Or.inr (Hello.fitLe_refl b)
      · exact Or.inr (List.rel_of_pairwise_cons hpair.tail h2)

/-- Claim C10 (amended): for every epoch with a valid configuration
(`tournament_size ≥ num_offspring + 2`), nonempty genomes and a population of
at least `tournament_size`, one `Epoch::evolve` call changes the population
size by exactly `2 − num_offspring` (it removes `tournament_size` candidates
and returns `tournament_size − num_offspring + 2`); population size is
conserved exactly iff `num_offspring = 2`, and the generation index increases
by exactly 1. -/
theorem evolve_population_delta (score : List ℕ → ℕ)
    (shuffle : List Hello.Genome → List Hello.Genome) (e : Hello.Epoch) (o : Hello.MateOracle)
    (hperm : (shuffle e.population).Perm e.population)
    (hsize : e.config.tournament_size ≤ e.population.length)
    (hvalid : e.config.num_offspring + 2 ≤ e.config.tournament_size)
    (hgenes : ∀ g ∈ e.population, g.genes ≠ []) :
    ∃ e', Hello.evolve score shuffle e o = some e'
      ∧ e'.population.length + e.config.num_offspring = e.population.length + 2
      ∧ (e'.population.length = e.population.length ↔ e.config.num_offspring = 2)
      ∧ e'.iteration = e.iteration + 1 := by
  have hsize' : e.config.tournament_size ≤ (shuffle e.population).length := by
    rw [hperm.length_eq]
    exact hsize
  have hgenes' : ∀ g ∈ shuffle e.population, g.genes ≠ [] := fun g hg =>
    hgenes g (hperm.subset hg)
  obtain ⟨a, b, rest', d1, d2, hs, hlen, hmate, hev⟩ :=
    Hello.evolve_success_shape score shuffle e o hsize' hvalid hgenes'
  have hrest : (Hello.draw score e.config.tournament_size (shuffle e.population)).2.length
      = (shuffle e.population).length - e.config.tournament_size := by
    rw [Hello.draw_spec score e.config.tournament_size (shuffle e.population) hsize']
    simp
  have hlpop := hperm.length_eq
  have h2 : (a :: b :: rest').length = e.config.tournament_size := hlen
  simp only [List.length_cons] at h2
  refine ⟨_, hev, ?_, ?_, rfl⟩
  · simp [hrest]
    omega
  · simp [hrest]
    omega


/-- Claim C4 (counterexample): with `tournament_size = 3`, `num_offspring = 1`
and three one-byte genomes, `evolve` returns a population of 4 candidates
(0 remaining + 0 bystanders + 2 parents + 2 children), while the claim's
count — bystanders plus 2 parents plus `num_offspring` children over the
empty remainder — predicts 3: the single `mate` call always adds 2 children,
not `num_offspring`. -/
theorem evolve_two_children_cx :
    (Hello.evolve score0 id epochC4 oracle0).map (fun e => e.population.length) = some 4
    ∧ 4 ≠ 0 + (3 - (1 + 2)) + 2 + 1 :=
  ⟨by decide, by decide⟩

/-- Witness for C4 (amended): the tournament decomposition at a concrete
epoch with `tournament_size = 4`, `num_offspring = 2` and four one-byte
genomes. -/
theorem evolve_tournament_structure_witness :
    ∃ (father mother : Hello.Genome) (bystanders children rest : List Hello.Genome),
      Hello.evolve score0 id epochW oracle0 = some
          { population := rest ++ bystanders ++ [mother, father] ++ children,
            config := epochW.config,
            best := Hello.update_best epochW.best father,
            iteration := epochW.iteration + 1 }
      ∧ rest = (Hello.draw score0 epochW.config.tournament_size (id epochW.population)).2
      ∧ bystanders.length
          = epochW.config.tournament_size - (epochW.config.num_offspring + 2)
      ∧ (∀ x ∈ bystanders,
          x ∈ (Hello.draw score0 epochW.config.tournament_size (id epochW.population)).1)
      ∧ (∀ x ∈ (Hello.draw score0 epochW.config.tournament_size (id epochW.population)).1,
          Hello.fitLe father x = true)
      ∧ (∀ x ∈ (Hello.draw score0 epochW.config.tournament_size (id epochW.population)).1,
          x = father ∨ Hello.fitLe mother x = true)
      ∧ Hello.mate mother father epochW.config oracle0 = some children
      ∧ children.length = 2 :=
  evolve_tournament_structure score0 id epochW oracle0 (by decide) (by decide) (by decide)

/-- Claim C5: the invalid configuration `tournament_size = 3`,
`num_offspring = 2` violates `Config::assert_invariants`, yet startup
(`run` = `Epoch::new` plus actor spawns, none of which call
`assert_invariants`) accepts it and builds a full population; the violation
first surfaces inside the first `Epoch::evolve` call, which panics
mid-generation. -/
theorem startup_accepts_invalid_config :
    Hello.Config.assert_invariants cfgBad = false
    ∧ (Hello.Epoch.new cfgBad genes0).population.length = cfgBad.pop_size
    ∧ Hello.evolve score0 id (Hello.Epoch.new cfgBad genes0) oracle0 = none :=
  ⟨by decide, by decide, by decide⟩

/-- Claim C7 (counterexample): a population of 2 under `tournament_size = 3`
(valid configuration, `num_offspring = 1`): the draw yields only 2
combatants and `evolve` panics at parent selection instead of completing the
generation. -/
theorem evolve_small_population_cx :
    Hello.evolve score0 id epochC7 oracle0 = none
    ∧ epochC7.population.length < epochC7.config.tournament_size :=
  ⟨by decide, by decide⟩

/-- Witness for C7 (amended): a population of 1 under `tournament_size = 3`
aborts the generation. -/
theorem evolve_small_population_panics_witness :
    epochC7b.population.length < epochC7b.config.tournament_size
    ∧ Hello.evolve score0 id epochC7b oracle0 = none :=
  ⟨by decide,
    evolve_small_population_panics score0 id epochC7b oracle0 (List.Perm.refl _) (by decide)⟩

/-- Claim C10 (counterexample): an epoch whose population (3 candidates) is
at least `tournament_size = 3` but whose configuration violates
`tournament_size ≥ num_offspring + 2` (`num_offspring = 2`): `evolve` panics
(usize underflow at the bystander count), so no successor epoch with
population delta `2 − num_offspring` and incremented generation index
exists. -/
theorem evolve_population_delta_invalid_cx :
    Hello.evolve score0 id epochBad oracle0 = none
    ∧ epochBad.config.tournament_size ≤ epochBad.population.length :=
  ⟨by decide, by decide⟩

/-- Witness for C10 (amended): at `tournament_size = 4`, `num_offspring = 2`
the population size is conserved and the iteration advances. -/
theorem evolve_population_delta_witness :
    ∃ e', Hello.evolve score0 id epochW oracle0 = some e'
      ∧ e'.population.length + epochW.config.num_offspring
          = epochW.population.length + 2
      ∧ (e'.population.length = epochW.population.length
          ↔ epochW.config.num_offspring = 2)
      ∧ e'.iteration = epochW.iteration + 1 :=
  evolve_population_delta score0 id epochW oracle0 (List.Perm.refl _) (by decide) (by decide)
    (by decide)

/-- Claim C6 (counterexample): `avg_emulation_micros` on a profile with no
runs returns the `f64` non-finite value 0/0 (NaN, modelled `none`) as an
ordinary return value, and the observer window's report over a frame with no
scored entries likewise logs NaN silently — neither surfaces an
unrecoverable error. -/
theorem zero_run_average_silent_cx :
    Emu.Profile.avg_emulation_micros emptyProfile = none
    ∧ Hello.reportAvg [none, none] = none :=
  ⟨by decide, by decide⟩

/-- Claim C6 (amended): on zero runs (`emulation_times = []`) and on a window
frame with zero scored entries, both averages perform the unchecked float
division 0/0 and silently evaluate to NaN (modelled `none`); no fatal error
is raised. -/
theorem zero_run_average_is_nan (p : Emu.Profile) (hp : p.emulation_times = [])
    (frame : List (Option Hello.Genome))
    (hf : frame.filterMap (fun t => t.bind (fun x => x.fitness)) = []) :
    Emu.Profile.avg_emulation_micros p = none ∧ Hello.reportAvg frame = none := by
  constructor
  · unfold Emu.Profile.avg_emulation_micros Emu.f64Div
    rw [hp]
    simp
  · unfold Hello.reportAvg
    rw [hf]
    simp [Emu.f64Div]

/-- Witness for C6 (amended): the profile with no runs and a frame holding
one unscored slot. -/
theorem zero_run_average_is_nan_witness :
    Emu.Profile.avg_emulation_micros emptyProfile = none
    ∧ Hello.reportAvg [none] = none :=
  zero_run_average_is_nan emptyProfile rfl [none] rfl

/-- Claim C9 (counterexample): a profile whose single write log entry writes
2 bytes at address 0, against a writeable-byte count of 1: `mem_write_ratio`
computes 2, outside `[0,1]` — the union of written addresses is not clamped
to the writeable region. -/
theorem mem_write_frac_exceeds_one_cx :
    Emu.Profile.mem_write_frac 1 cxWriteProfile = some 2 ∧ ¬((2 : ℚ) ≤ 1) := by
  have hset : cxWriteProfile.addresses_written_to = {0, 1} := by decide
  constructor
  · unfold Emu.Profile.mem_write_frac Emu.f64Div
    rw [hset]
    norm_num
  · norm_num

/-- Claim C9 (amended): with a positive writeable-byte count `S` and a write
log whose distinct written addresses number at most `S` (as holds when every
write targets the writeable region), the memory-write ratio equals
`|union of written addresses| / S` and lies in the closed interval `[0,1]`. -/
theorem mem_write_frac_bounds (S : ℕ) (p : Emu.Profile) (hS : 0 < S)
    (hsub : p.addresses_written_to.card ≤ S) :
    Emu.Profile.mem_write_frac S p
        = some ((p.addresses_written_to.card : ℚ) / (S : ℚ))
      ∧ 0 ≤ ((p.addresses_written_to.card : ℚ) / (S : ℚ))
      ∧ ((p.addresses_written_to.card : ℚ) / (S : ℚ)) ≤ 1 := by
  have hS' : ((S : ℚ)) ≠ 0 := by
    exact_mod_cast Nat.pos_iff_ne_zero.mp hS
  refine ⟨?_, ?_, ?_⟩
  · unfold Emu.Profile.mem_write_frac Emu.f64Div
    rw [if_neg hS']
  · positivity
  · rw [div_le_one (by positivity)]
    exact_mod_cast hsub

/-- Witness for C9 (amended): one 1-byte write against 2 writeable bytes
yields the in-range ratio 1/2. -/
theorem mem_write_frac_bounds_witness :
    Emu.Profile.mem_write_frac 2 wWriteProfile
        = some ((wWriteProfile.addresses_written_to.card : ℚ) / (((2 : ℕ)) : ℚ))
      ∧ 0 ≤ ((wWriteProfile.addresses_written_to.card : ℚ) / (((2 : ℕ)) : ℚ))
      ∧ ((wWriteProfile.addresses_written_to.card : ℚ) / (((2 : ℕ)) : ℚ)) ≤ 1 :=
  mem_write_frac_bounds 2 wWriteProfile (by decide) (by decide)
